import Mathlib

/-!
Tutorial03_Texturing: grid mesh generation and per-frame update.

A shallow embedding of `src/Tutorial03_Texturing.cpp`:

* `CreateVertexBuffer` / `CreateIndexBuffer` are embedded with the resolution and the plane
  extents as arguments (the sample passes 100 x 100 and 12 x 12).
* `Uint32` values are natural numbers reduced modulo `2 ^ 32` after every operation.
* `float` arithmetic is a parameter, `FloatArith`. The code runs with `binary32`: every
  operation and conversion rounds its exact result to the nearest IEEE 754 single-precision
  value, ties to even. `exactArith` is the arithmetic without rounding, over the rationals.
* `std::vector::operator[]` outside the allocated size is undefined behaviour; the embedding
  returns `none` there.
-/

namespace Diligent

/-! ## Machine integers -/

/-- Reduction of a natural number to the range of `Uint32`. -/
def u32 (n : Nat) : Nat := n % 4294967296

/-- `Uint32` subtraction `a - b`, wrapping around below zero. -/
def sub32 (a b : Nat) : Nat := (a + 4294967296 - b % 4294967296) % 4294967296

/-! ## Floating point -/

/-- The `float` operations that the sample uses. `ofNat` converts a `Uint32` or an `int`
constant (and gives the zero of value-initialisation), `ofRat` converts a `double` or a
`float` literal, given by its exact value; `toRat` is the numeric value of a finite
`float`. -/
structure FloatArith (F : Type) where
  ofNat : Nat → F
  ofRat : ℚ → F
  neg : F → F
  add : F → F → F
  mul : F → F → F
  div : F → F → F
  toRat : F → Option ℚ

/-- Arithmetic without rounding, over the rationals. A division by zero, which the sample
does not reach for resolutions of at least two, gives zero here. -/
def exactArith : FloatArith ℚ where
  ofNat := fun n => (n : ℚ)
  ofRat := fun q => q
  neg := fun a => -a
  add := fun a b => a + b
  mul := fun a b => a * b
  div := fun a b => a / b
  toRat := fun a => some a

/-- The integer nearest to `n / d`, ties to the even one. -/
def roundHalfEven (n d : Nat) : Nat :=
  let f := n / d
  let r := n % d
  if 2 * r < d then f else if d < 2 * r then f + 1 else if f % 2 = 0 then f else f + 1

/-- The position of the leading bit of `m`, for `0 < m < 2 ^ 512`: the largest `k` with
`2 ^ k ≤ m`, found bit by bit from the weight 256 down. -/
def ilog2 (m : Nat) : Nat :=
  [256, 128, 64, 32, 16, 8, 4, 2, 1].foldl (fun k b => if m >>> (k + b) = 0 then k else k + b) 0

/-- Rounding of the magnitude `n / d`, counted in units of `2 ^ (-149)` (the smallest
positive binary32 value), to the nearest magnitude with a 24-bit significand, ties to even,
in the same units. Below `2 ^ 24` units (subnormal numbers and the first binade of normal
ones) the representable magnitudes are the integers; in the binade of leading bit `k ≥ 24`
they are the multiples of `2 ^ (k - 23)`. -/
def roundMag (n d : Nat) : Nat :=
  let m := n / d
  if m < 16777216 then roundHalfEven n d
  else roundHalfEven n (d * 2 ^ (ilog2 m - 23)) * 2 ^ (ilog2 m - 23)

/-- The magnitude `2 ^ 128`, in units of `2 ^ (-149)`: the least magnitude beyond the
largest finite binary32 value, `(2 ^ 24 - 1) * 2 ^ 253` units. -/
def overflow32 : Nat := 16777216 * 2 ^ 253

/-- Rounding of the exact value `p / d` units to binary32. A finite binary32 value is the
integer number of units of `2 ^ (-149)` it holds; `none` stands for a value that is not
finite (an infinity or a NaN), which is what a magnitude that rounds to `2 ^ 128` or more
becomes. -/
def round32 (p : Int) (d : Nat) : Option Int :=
  if overflow32 ≤ p.natAbs / d then none
  else
    let k := roundMag p.natAbs d
    if k < overflow32 then some (if p < 0 then -(k : Int) else (k : Int)) else none

/-- IEEE 754 single precision, round to nearest, ties to even, every operation rounded on
its own. Values are `Option Int` as in `round32`. The sign of zero is not kept, and the
infinities and NaN are one value, `none`: an operation with a non-finite operand gives a
non-finite result (the sample never divides by a computed value, the one case where IEEE
arithmetic would return to a finite number), and a division by zero gives a non-finite
result. -/
def binary32 : FloatArith (Option Int) where
  ofNat := fun n => round32 ((n * 2 ^ 149 : Nat) : Int) 1
  ofRat := fun q => round32 (q.num * ((2 ^ 149 : Nat) : Int)) q.den
  neg := fun a => a.map fun x => -x
  add := fun a b => a.bind fun x => b.bind fun y => round32 (x + y) 1
  mul := fun a b => a.bind fun x => b.bind fun y => round32 (x * y) (2 ^ 149)
  div := fun a b => a.bind fun x => b.bind fun y =>
    if y = 0 then none
    else round32 (if 0 < y then x * ((2 ^ 149 : Nat) : Int) else -(x * ((2 ^ 149 : Nat) : Int)))
      y.natAbs
  toRat := fun a => a.map fun x => (x : ℚ) / ((2 ^ 149 : Nat) : ℚ)

/-! ## Loops -/

/-- The loop `for (Uint32 i = start; i < start + n; ++i) body`: `forLoop body n start s` runs
`body start`, `body (start + 1)`, ..., `body (start + n - 1)` in that order, threading the
state, and stops with `none` as soon as one iteration fails. -/
def forLoop {σ : Type} (body : Nat → σ → Option σ) : Nat → Nat → σ → Option σ
  | 0, _, s => some s
  | n + 1, i, s =>
    match body i s with
    | none => none
    | some s' => forLoop body n (i + 1) s'

/-! ## Vertex buffer -/

/-- The type `float3` of BasicMath. -/
structure float3 (F : Type) where
  x : F
  y : F
  z : F
  deriving DecidableEq

/-- The type `float2` of BasicMath. -/
structure float2 (F : Type) where
  x : F
  y : F
  deriving DecidableEq

/-- The local `struct Vertex` of `CreateVertexBuffer`. -/
structure Vertex (F : Type) where
  pos : float3 F
  uv : float2 F
  deriving DecidableEq

/-- A value-initialised `Vertex`, as `std::vector<Vertex> PlaneVerts(TotalVertexCount)`
creates them. -/
def Vertex.zero {F : Type} (A : FloatArith F) : Vertex F :=
  ⟨⟨A.ofNat 0, A.ofNat 0, A.ofNat 0⟩, ⟨A.ofNat 0, A.ofNat 0⟩⟩

/-- The constant `StepX` of `CreateVertexBuffer` (and, with the other extent and count,
`StepZ`): `PlaneWidth / (VertexCountX - 1)`, the divisor a `Uint32` converted to `float`. -/
def Step {F : Type} (A : FloatArith F) (PlaneExtent : F) (VertexCount : Nat) : F :=
  A.div PlaneExtent (A.ofNat (sub32 VertexCount 1))

/-- The local `xPos` of the loop body of `CreateVertexBuffer` (and, with the other extent,
count and loop variable, `zPos`): `-PlaneWidth / 2.0f + x * StepX`. -/
def gridPos {F : Type} (A : FloatArith F) (PlaneExtent : F) (VertexCount x : Nat) : F :=
  A.add (A.div (A.neg PlaneExtent) (A.ofRat 2))
    (A.mul (A.ofNat x) (Step A PlaneExtent VertexCount))

/-- The local `u` of the loop body of `CreateVertexBuffer` (and, with the other count and
loop variable, `v`): `static_cast<float>(x) / (VertexCountX - 1)`. -/
def gridUV {F : Type} (A : FloatArith F) (VertexCount x : Nat) : F :=
  A.div (A.ofNat x) (A.ofNat (sub32 VertexCount 1))

/-- The vertex that the body of the inner loop of `CreateVertexBuffer` computes at `(x, z)`. -/
def planeVertex {F : Type} (A : FloatArith F) (PlaneWidth PlaneLength : F)
    (VertexCountX VertexCountZ : Nat) (z x : Nat) : Vertex F :=
  let xPos := gridPos A PlaneWidth VertexCountX x
  let zPos := gridPos A PlaneLength VertexCountZ z
  let u := gridUV A VertexCountX x
  let v := gridUV A VertexCountZ z
  ⟨⟨xPos, A.ofRat 0, zPos⟩, ⟨u, v⟩⟩

/-- The body of the inner loop of `CreateVertexBuffer`: the assignment to `PlaneVerts[index]`
with `index = z * VertexCountX + x` in `Uint32`. -/
def vertexBody {F : Type} (A : FloatArith F) (PlaneWidth PlaneLength : F)
    (VertexCountX VertexCountZ : Nat) (z x : Nat) (PlaneVerts : List (Vertex F)) :
    Option (List (Vertex F)) :=
  let index := u32 (u32 (z * VertexCountX) + x)
  if index < PlaneVerts.length then
    some (PlaneVerts.set index
      (planeVertex A PlaneWidth PlaneLength VertexCountX VertexCountZ z x))
  else none

/-- The contents of `PlaneVerts` that `CreateVertexBuffer` hands to the device, for a plane of
`PlaneWidth` x `PlaneLength` with `VertexCountX` x `VertexCountZ` vertices. -/
def CreateVertexBuffer {F : Type} (A : FloatArith F) (PlaneWidth PlaneLength : F)
    (VertexCountX VertexCountZ : Nat) : Option (List (Vertex F)) :=
  let TotalVertexCount := u32 (VertexCountX * VertexCountZ)
  let PlaneVerts := List.replicate TotalVertexCount (Vertex.zero A)
  forLoop (fun z vs =>
    forLoop (fun x vs' => vertexBody A PlaneWidth PlaneLength VertexCountX VertexCountZ z x vs')
      VertexCountX 0 vs) VertexCountZ 0 PlaneVerts

/-! ## Index buffer -/

/-- The mutable locals of `CreateIndexBuffer`: the pre-sized array `Indices` and the write
cursor `IndexOffset`. The field `written` is a ghost record of the positions written so far,
in order. -/
structure IndexWriter where
  Indices : List Nat
  IndexOffset : Nat
  written : List Nat
  deriving DecidableEq

/-- The statement `Indices[IndexOffset++] = v`. -/
def store (s : IndexWriter) (v : Nat) : Option IndexWriter :=
  if s.IndexOffset < s.Indices.length then
    some ⟨s.Indices.set s.IndexOffset v, u32 (s.IndexOffset + 1), s.written ++ [s.IndexOffset]⟩
  else none

/-- The local `BottomLeft` of the loop body of `CreateIndexBuffer`. -/
def BottomLeft (VertexCountX z x : Nat) : Nat := u32 (u32 (z * VertexCountX) + x)

/-- The local `BottomRight` of the loop body of `CreateIndexBuffer`. -/
def BottomRight (VertexCountX z x : Nat) : Nat := u32 (BottomLeft VertexCountX z x + 1)

/-- The local `TopLeft` of the loop body of `CreateIndexBuffer`. -/
def TopLeft (VertexCountX z x : Nat) : Nat := u32 (u32 (u32 (z + 1) * VertexCountX) + x)

/-- The local `TopRight` of the loop body of `CreateIndexBuffer`. -/
def TopRight (VertexCountX z x : Nat) : Nat := u32 (TopLeft VertexCountX z x + 1)

/-- The body of the inner loop of `CreateIndexBuffer`: six stores for the cell `(x, z)`. -/
def cellBody (VertexCountX z x : Nat) (s : IndexWriter) : Option IndexWriter :=
  (store s (BottomLeft VertexCountX z x)).bind fun s1 =>
  (store s1 (TopLeft VertexCountX z x)).bind fun s2 =>
  (store s2 (TopRight VertexCountX z x)).bind fun s3 =>
  (store s3 (BottomLeft VertexCountX z x)).bind fun s4 =>
  (store s4 (TopRight VertexCountX z x)).bind fun s5 =>
  store s5 (BottomRight VertexCountX z x)

/-- The constant `CellCountX` (and, with the other count, `CellCountZ`) of
`CreateIndexBuffer` and `Render`. -/
def CellCount (VertexCount : Nat) : Nat := sub32 VertexCount 1

/-- The constant `TotalIndexCount` of `CreateIndexBuffer`. -/
def TotalIndexCount (VertexCountX VertexCountZ : Nat) : Nat :=
  u32 (u32 (CellCount VertexCountX * CellCount VertexCountZ) * 6)

/-- The locals of `CreateIndexBuffer` before the loops: `Indices` holds `TotalIndexCount`
zeros and `IndexOffset` is `0`. -/
def indexInit (VertexCountX VertexCountZ : Nat) : IndexWriter :=
  ⟨List.replicate (TotalIndexCount VertexCountX VertexCountZ) 0, 0, []⟩

/-- The inner loop of `CreateIndexBuffer` for row `z`. -/
def indexRow (VertexCountX z : Nat) (s : IndexWriter) : Option IndexWriter :=
  forLoop (fun x s' => cellBody VertexCountX z x s') (CellCount VertexCountX) 0 s

/-- The two nested loops of `CreateIndexBuffer`, run from the initial locals. -/
def indexLoops (VertexCountX VertexCountZ : Nat) : Option IndexWriter :=
  forLoop (fun z s => indexRow VertexCountX z s) (CellCount VertexCountZ) 0
    (indexInit VertexCountX VertexCountZ)

/-- The locals of `CreateIndexBuffer` on entering the loop body for the cell `(x, z)`: the
outer loop has completed the rows `0 .. z - 1` and the inner loop the cells `0 .. x - 1` of
row `z`. -/
def indexEntry (VertexCountX VertexCountZ z x : Nat) : Option IndexWriter :=
  (forLoop (fun z' s => indexRow VertexCountX z' s) z 0
    (indexInit VertexCountX VertexCountZ)).bind fun s =>
  forLoop (fun x' s' => cellBody VertexCountX z x' s') x 0 s

/-- The contents of `Indices` that `CreateIndexBuffer` hands to the device, for a grid of
`VertexCountX` x `VertexCountZ` vertices. -/
def CreateIndexBuffer (VertexCountX VertexCountZ : Nat) : Option (List Nat) :=
  (indexLoops VertexCountX VertexCountZ).map fun s => s.Indices

/-! ## The sample's constants -/

/-- The vertex buffer of the sample: `PlaneWidth = PlaneLength = 12.0f` and
`VertexCountX = VertexCountZ = 100`. -/
def sampleVertexBuffer {F : Type} (A : FloatArith F) : Option (List (Vertex F)) :=
  CreateVertexBuffer A (A.ofRat 12) (A.ofRat 12) 100 100

/-- The index buffer of the sample: `VertexCountX = VertexCountZ = 100`. -/
def sampleIndexBuffer : Option (List Nat) := CreateIndexBuffer 100 100

/-- The value that `Render` assigns to `DrawAttrs.NumIndices`, from its own copies of the
constants `VertexCountX`, `VertexCountZ`, `CellCountX` and `CellCountZ`. -/
def Render_NumIndices : Nat :=
  let VertexCountX := 100
  let VertexCountZ := 100
  let CellCountX := sub32 VertexCountX 1
  let CellCountZ := sub32 VertexCountZ 1
  u32 (u32 (CellCountX * CellCountZ) * 6)

/-! ## Triangles of the mesh -/

/-- The engine code that `Update` calls and that is not part of the sample: the `float4x4`
constructors and product of BasicMath, the constant `PI_F`, and the two matrix getters of
`SampleBase`, whose results depend on the host's swap chain. `M` stands for `float4x4`. -/
structure Engine (F M : Type) where
  PI_F : F
  RotationX : F → M
  Translation : F → F → F → M
  mul : M → M → M
  GetSurfacePretransformMatrix : float3 F → M
  GetAdjustedProjectionMatrix : F → F → F → M

/-- The two members of the sample that `Update` assigns. -/
structure SampleState (F M : Type) where
  m_Time : F
  m_WorldViewProjMatrix : M

/-- The method `Update`; `ElapsedTime` is the exact value of the `double` argument.
`SampleBase::Update` is engine code and leaves both members alone. -/
def Update {F M : Type} (A : FloatArith F) (E : Engine F M) (s : SampleState F M)
    (_CurrTime ElapsedTime : ℚ) (_DoUpdateUI : Bool) : SampleState F M :=
  let m_Time := A.add s.m_Time (A.ofRat ElapsedTime)
  let PlaneModelTransform := E.RotationX (A.mul (A.neg E.PI_F) (A.ofRat (15 / 100)))
  let View := E.Translation (A.ofRat 0) (A.ofRat 2) (A.ofRat 20)
  let SrfPreTransform := E.GetSurfacePretransformMatrix ⟨A.ofNat 0, A.ofNat 0, A.ofNat 1⟩
  let Proj := E.GetAdjustedProjectionMatrix (A.div E.PI_F (A.ofRat 4)) (A.ofRat (1 / 10))
    (A.ofRat 100)
  ⟨m_Time, E.mul (E.mul (E.mul PlaneModelTransform View) SrfPreTransform) Proj⟩

/-- Invariant of the loops of `CreateVertexBuffer` once the first `k` vertices (in row-major
order) are written. -/
def VertexInv {F : Type} (A : FloatArith F) (W L : F) (Nx Nz : Nat) (k : Nat) (vs : List (Vertex F)) : Prop :=
  vs.length = Nx * Nz ∧ ∀ i, i < k → vs[i]? = some (planeVertex A W L Nx Nz (i / Nx) (i % Nx))

/-- The `j`-th of the six values that the cell `(x, z)` contributes, with row-major vertex
numbering and without wrap-around. -/
def cellIndex (Nx z x : Nat) : Nat → Nat
  | 0 => z * Nx + x
  | 1 => (z + 1) * Nx + x
  | 2 => (z + 1) * Nx + x + 1
  | 3 => z * Nx + x
  | 4 => (z + 1) * Nx + x + 1
  | _ => z * Nx + x + 1

/-- Invariant of the loops of `CreateIndexBuffer` once `k` cells (in row-major order) are
written. -/
def IndexInv (Nx Nz : Nat) (k : Nat) (s : IndexWriter) : Prop :=
  s.Indices.length = (Nx - 1) * (Nz - 1) * 6 ∧ s.IndexOffset = 6 * k ∧
    s.written = List.range (6 * k) ∧
    ∀ p, p < 6 * k →
      s.Indices[p]? = some (cellIndex Nx (p / 6 / (Nx - 1)) (p / 6 % (Nx - 1)) (p % 6))

/-! ## Machine integers and loops: basic facts -/

theorem u32_of_lt {n : Nat} (h : n < 4294967296) : u32 n = n := Nat.mod_eq_of_lt h

theorem u32_lt (n : Nat) : u32 n < 4294967296 := Nat.mod_lt _ (by norm_num)

theorem sub32_one {n : Nat} (h1 : 1 ≤ n) (h2 : n < 4294967296) : sub32 n 1 = n - 1 := by
  unfold sub32; omega

/-- A loop whose iterations all succeed and preserve an invariant succeeds and establishes
the invariant at the exit. -/
theorem forLoop_complete {σ : Type} (body : Nat → σ → Option σ) (P : Nat → σ → Prop) (n i : Nat)
    (s : σ) (h0 : P i s)
    (hstep : ∀ j t, i ≤ j → j < i + n → P j t → ∃ t', body j t = some t' ∧ P (j + 1) t') :
    ∃ s', forLoop body n i s = some s' ∧ P (i + n) s' := by
  induction n generalizing i s with
  | zero => exact ⟨s, rfl, h0⟩
  | succ n ih =>
    obtain ⟨t, ht, hP⟩ := hstep i s (le_refl _) (by omega) h0
    obtain ⟨s', hs', hP'⟩ := ih (i + 1) t hP (fun j u hj1 hj2 hu => hstep j u (by omega) (by omega) hu)
    refine ⟨s', ?_, ?_⟩
    · rw [forLoop, ht]; exact hs'
    · have : i + (n + 1) = i + 1 + n := by omega
      rw [this]; exact hP'

/-- A loop that succeeds has run every iteration successfully, so an invariant of the
successful iterations holds at the exit. -/
theorem forLoop_sound {σ : Type} (body : Nat → σ → Option σ) (P : Nat → σ → Prop) (n i : Nat)
    (s s' : σ) (hrun : forLoop body n i s = some s') (h0 : P i s)
    (hstep : ∀ j t t', i ≤ j → j < i + n → P j t → body j t = some t' → P (j + 1) t') :
    P (i + n) s' := by
  induction n generalizing i s with
  | zero =>
    simp only [forLoop, Option.some.injEq] at hrun
    subst hrun; exact h0
  | succ n ih =>
    rw [forLoop] at hrun
    cases h : body i s with
    | none => simp [h] at hrun
    | some t =>
      simp only [h] at hrun
      have := ih (i + 1) t hrun (hstep i s t (le_refl _) (by omega) h0 h)
        (fun j u u' hj1 hj2 hu hb => hstep j u u' (by omega) (by omega) hu hb)
      have e : i + (n + 1) = i + 1 + n := by omega
      rw [e]; exact this

/-- In a loop that succeeds, every iteration was entered in a state satisfying the
invariant and succeeded there. -/
theorem forLoop_iter {σ : Type} (body : Nat → σ → Option σ) (P : σ → Prop) (n i : Nat)
    (s s' : σ) (hrun : forLoop body n i s = some s') (h0 : P s)
    (hstep : ∀ j t t', P t → body j t = some t' → P t') (j : Nat) (hj1 : i ≤ j)
    (hj2 : j < i + n) : ∃ t t', P t ∧ body j t = some t' := by
  induction n generalizing i s with
  | zero => omega
  | succ n ih =>
    rw [forLoop] at hrun
    cases h : body i s with
    | none => simp [h] at hrun
    | some t =>
      simp only [h] at hrun
      by_cases hij : j = i
      · subst hij; exact ⟨s, t, h0, h⟩
      · exact ih (i + 1) t hrun (hstep i s t h0 h) (by omega) (by omega)

theorem cell_div {N : Nat} (z x : Nat) (hx : x < N) : (z * N + x) / N = z := by
  have hN : 0 < N := by omega
  rw [Nat.add_comm, Nat.add_mul_div_right _ _ hN, Nat.div_eq_of_lt hx, Nat.zero_add]

theorem cell_mod {N : Nat} (z x : Nat) (hx : x < N) : (z * N + x) % N = x := by
  rw [Nat.add_comm, Nat.add_mul_mod_self_right, Nat.mod_eq_of_lt hx]

theorem cell_lt {N M : Nat} (z x : Nat) (hx : x < N) (hz : z < M) : z * N + x < N * M := by
  have : (z + 1) * N ≤ M * N := Nat.mul_le_mul_right N hz
  have e : (z + 1) * N = z * N + N := by ring
  have e2 : M * N = N * M := Nat.mul_comm _ _
  omega

theorem vertexBody_step {F : Type} (A : FloatArith F) (W L : F) (Nx Nz z x : Nat) (hb : Nx * Nz < 4294967296)
    (hz : z < Nz) (hx : x < Nx) (vs : List (Vertex F)) (hv : VertexInv A W L Nx Nz (z * Nx + x) vs) :
    ∃ vs', vertexBody A W L Nx Nz z x vs = some vs' ∧ VertexInv A W L Nx Nz (z * Nx + x + 1) vs' := by
  obtain ⟨hlen, hget⟩ := hv
  have hlt : z * Nx + x < Nx * Nz := cell_lt z x hx hz
  have e1 : u32 (z * Nx) = z * Nx := u32_of_lt (by omega)
  have e2 : u32 (z * Nx + x) = z * Nx + x := u32_of_lt (by omega)
  refine ⟨vs.set (z * Nx + x) (planeVertex A W L Nx Nz z x), ?_, ?_, ?_⟩
  · simp only [vertexBody, e1, e2]
    rw [if_pos (by omega)]
  · simpa using hlen
  · intro i hi
    by_cases hik : i = z * Nx + x
    · subst hik
      rw [List.getElem?_set_self (by omega)]
      rw [cell_div z x hx, cell_mod z x hx]
    · rw [List.getElem?_set_ne (fun h => hik h.symm)]
      exact hget i (by omega)

theorem vertex_total {F : Type} (A : FloatArith F) (W L : F) (Nx Nz : Nat) (hb : Nx * Nz < 4294967296) :
    ∃ vs, CreateVertexBuffer A W L Nx Nz = some vs ∧ vs.length = Nx * Nz ∧
      ∀ i, i < Nx * Nz → vs[i]? = some (planeVertex A W L Nx Nz (i / Nx) (i % Nx)) := by
  have e0 : u32 (Nx * Nz) = Nx * Nz := u32_of_lt hb
  have hrow : ∀ z vs, 0 ≤ z → z < 0 + Nz → VertexInv A W L Nx Nz (z * Nx) vs →
      ∃ vs', forLoop (fun x vs' => vertexBody A W L Nx Nz z x vs') Nx 0 vs = some vs' ∧
        VertexInv A W L Nx Nz ((z + 1) * Nx) vs' := by
    intro z vs _ hz hv
    have := forLoop_complete (fun x vs' => vertexBody A W L Nx Nz z x vs')
      (fun x vs' => VertexInv A W L Nx Nz (z * Nx + x) vs') Nx 0 vs (by simpa using hv)
      (fun x t _ hx ht => vertexBody_step A W L Nx Nz z x hb (by omega) (by omega) t ht)
    obtain ⟨vs', h1, h2⟩ := this
    refine ⟨vs', h1, ?_⟩
    have e : (z + 1) * Nx = z * Nx + (0 + Nx) := by ring
    rw [e]; exact h2
  have := forLoop_complete
    (fun z vs => forLoop (fun x vs' => vertexBody A W L Nx Nz z x vs') Nx 0 vs)
    (fun z vs => VertexInv A W L Nx Nz (z * Nx) vs) Nz 0
    (List.replicate (Nx * Nz) (Vertex.zero A))
    ⟨by simp, fun i hi => by omega⟩ hrow
  obtain ⟨vs, h1, h2, h3⟩ := this
  refine ⟨vs, ?_, h2, ?_⟩
  · simp only [CreateVertexBuffer, e0]; exact h1
  · intro i hi
    apply h3 i
    have : (0 + Nz) * Nx = Nx * Nz := by ring
    omega

/-- A run of `CreateVertexBuffer` that returns has written inside an array of
`VertexCountX * VertexCountZ` elements, so the product did not wrap around. -/
theorem vertex_some_bound {F : Type} (A : FloatArith F) (W L : F) (Nx Nz : Nat) (vs : List (Vertex F))
    (h : CreateVertexBuffer A W L Nx Nz = some vs) : Nx * Nz < 4294967296 := by
  by_contra hcon
  have hT : u32 (Nx * Nz) < 4294967296 := u32_lt _
  have hTlt : u32 (Nx * Nz) < Nx * Nz := by omega
  have hNx : 0 < Nx := by
    rcases Nat.eq_zero_or_pos Nx with h0 | h0
    · subst h0; simp at hTlt
    · exact h0
  set T := u32 (Nx * Nz) with hTdef
  -- the iteration that writes position `T`
  have hzlt : T / Nx < Nz := by
    rw [Nat.div_lt_iff_lt_mul hNx]; rw [Nat.mul_comm]; exact hTlt
  have hxlt : T % Nx < Nx := Nat.mod_lt _ hNx
  have hpres : ∀ z x (t t' : List (Vertex F)), t.length = T →
      vertexBody A W L Nx Nz z x t = some t' → t'.length = T := by
    intro z x t t' ht hb
    simp only [vertexBody] at hb
    split at hb
    · simp only [Option.some.injEq] at hb; subst hb; simpa using ht
    · simp at hb
  have hrowpres : ∀ z (t t' : List (Vertex F)), t.length = T →
      forLoop (fun x vs' => vertexBody A W L Nx Nz z x vs') Nx 0 t = some t' → t'.length = T := by
    intro z t t' ht hrun
    have := forLoop_sound (fun x vs' => vertexBody A W L Nx Nz z x vs')
      (fun _ u => u.length = T) Nx 0 t t' hrun ht
      (fun x u u' _ _ hu hb => hpres z x u u' hu hb)
    exact this
  unfold CreateVertexBuffer at h
  obtain ⟨t, t', ht, hrow⟩ := forLoop_iter _ (fun u : List (Vertex F) => u.length = T) Nz 0 _ vs h
    (by simp [hTdef]) (fun z u u' hu hb => hrowpres z u u' hu hb) (T / Nx) (Nat.zero_le _)
    (by omega)
  obtain ⟨u, u', hu, hcell⟩ := forLoop_iter _ (fun u : List (Vertex F) => u.length = T) Nx 0 t t' hrow
    ht (fun x u u' hu hb => hpres (T / Nx) x u u' hu hb) (T % Nx) (Nat.zero_le _) (by omega)
  simp only [vertexBody] at hcell
  have e : u32 (u32 (T / Nx * Nx) + T % Nx) = T := by
    have h1 : T / Nx * Nx + T % Nx = T := by
      rw [Nat.mul_comm]; exact Nat.div_add_mod T Nx
    have h2 : T / Nx * Nx < 4294967296 := by omega
    rw [u32_of_lt h2, h1, u32_of_lt hT]
  rw [e, hu] at hcell
  simp at hcell

theorem cellBody_eq (Nx z x : Nat) (s : IndexWriter)
    (h1 : s.IndexOffset + 6 ≤ s.Indices.length) (h2 : s.Indices.length < 4294967296) :
    cellBody Nx z x s = some
      ⟨(((((s.Indices.set s.IndexOffset (BottomLeft Nx z x)).set (s.IndexOffset + 1)
          (TopLeft Nx z x)).set (s.IndexOffset + 2) (TopRight Nx z x)).set (s.IndexOffset + 3)
          (BottomLeft Nx z x)).set (s.IndexOffset + 4) (TopRight Nx z x)).set
          (s.IndexOffset + 5) (BottomRight Nx z x),
        s.IndexOffset + 6,
        s.written ++ [s.IndexOffset, s.IndexOffset + 1, s.IndexOffset + 2, s.IndexOffset + 3,
          s.IndexOffset + 4, s.IndexOffset + 5]⟩ := by
  have a1 : u32 (s.IndexOffset + 1) = s.IndexOffset + 1 := u32_of_lt (by omega)
  have a2 : u32 (s.IndexOffset + 1 + 1) = s.IndexOffset + 2 := u32_of_lt (by omega)
  have a3 : u32 (s.IndexOffset + 2 + 1) = s.IndexOffset + 3 := u32_of_lt (by omega)
  have a4 : u32 (s.IndexOffset + 3 + 1) = s.IndexOffset + 4 := u32_of_lt (by omega)
  have a5 : u32 (s.IndexOffset + 4 + 1) = s.IndexOffset + 5 := u32_of_lt (by omega)
  have a6 : u32 (s.IndexOffset + 5 + 1) = s.IndexOffset + 6 := u32_of_lt (by omega)
  have b0 : s.IndexOffset < s.Indices.length := by omega
  have b1 : s.IndexOffset + 1 < s.Indices.length := by omega
  have b2 : s.IndexOffset + 2 < s.Indices.length := by omega
  have b3 : s.IndexOffset + 3 < s.Indices.length := by omega
  have b4 : s.IndexOffset + 4 < s.Indices.length := by omega
  have b5 : s.IndexOffset + 5 < s.Indices.length := by omega
  simp [cellBody, store, a1, a2, a3, a4, a5, a6, b0, b1, b2, b3, b4, b5]

theorem cell_values (Nx Nz z x : Nat) (hNx : 2 ≤ Nx) (hb : Nx * Nz < 4294967296)
    (hz : z < Nz - 1) (hx : x < Nx - 1) :
    BottomLeft Nx z x = z * Nx + x ∧ BottomRight Nx z x = z * Nx + x + 1 ∧
      TopLeft Nx z x = (z + 1) * Nx + x ∧ TopRight Nx z x = (z + 1) * Nx + x + 1 := by
  have hlt : (z + 1) * Nx + (x + 1) < Nx * Nz := cell_lt (z + 1) (x + 1) (by omega) (by omega)
  have e : (z + 1) * Nx = z * Nx + Nx := by ring
  have c1 : u32 (z * Nx) = z * Nx := u32_of_lt (by omega)
  have c2 : u32 (z * Nx + x) = z * Nx + x := u32_of_lt (by omega)
  have c3 : u32 (z * Nx + x + 1) = z * Nx + x + 1 := u32_of_lt (by omega)
  have c4 : u32 (z + 1) = z + 1 := u32_of_lt (by nlinarith)
  have c5 : u32 ((z + 1) * Nx) = (z + 1) * Nx := u32_of_lt (by omega)
  have c6 : u32 ((z + 1) * Nx + x) = (z + 1) * Nx + x := u32_of_lt (by omega)
  have c7 : u32 ((z + 1) * Nx + x + 1) = (z + 1) * Nx + x + 1 := u32_of_lt (by omega)
  simp only [BottomLeft, BottomRight, TopLeft, TopRight, c1, c2, c3, c4, c5, c6, c7, and_self]

/-- The product `VertexCountX * VertexCountZ` fits whenever the index count does. -/
theorem vertex_bound_of_index_bound (Nx Nz : Nat) (hNx : 2 ≤ Nx) (hNz : 2 ≤ Nz)
    (hb : (Nx - 1) * (Nz - 1) * 6 < 4294967296) : Nx * Nz < 4294967296 := by
  obtain ⟨a, rfl⟩ : ∃ a, Nx = a + 2 := ⟨Nx - 2, by omega⟩
  obtain ⟨b, rfl⟩ : ∃ b, Nz = b + 2 := ⟨Nz - 2, by omega⟩
  simp only [Nat.add_sub_cancel, show a + 2 - 1 = a + 1 by omega,
    show b + 2 - 1 = b + 1 by omega] at hb
  nlinarith [Nat.zero_le (a * b), Nat.zero_le a, Nat.zero_le b]

theorem cellBody_step (Nx Nz z x : Nat) (hNx : 2 ≤ Nx) (hNz : 2 ≤ Nz)
    (hb : (Nx - 1) * (Nz - 1) * 6 < 4294967296) (hz : z < Nz - 1) (hx : x < Nx - 1)
    (s : IndexWriter) (hs : IndexInv Nx Nz (z * (Nx - 1) + x) s) :
    ∃ s', cellBody Nx z x s = some s' ∧ IndexInv Nx Nz (z * (Nx - 1) + x + 1) s' ∧
      s'.written = s.written ++ [s.IndexOffset, s.IndexOffset + 1, s.IndexOffset + 2,
        s.IndexOffset + 3, s.IndexOffset + 4, s.IndexOffset + 5] := by
  obtain ⟨hlen, hoff, hwr, hget⟩ := hs
  have hk : z * (Nx - 1) + x < (Nx - 1) * (Nz - 1) := cell_lt z x hx hz
  have hvb := vertex_bound_of_index_bound Nx Nz hNx hNz hb
  obtain ⟨v1, v2, v3, v4⟩ := cell_values Nx Nz z x hNx hvb hz hx
  have hbody := cellBody_eq Nx z x s (by omega) (by omega)
  refine ⟨_, hbody, ⟨?_, ?_, ?_, ?_⟩, rfl⟩
  · simpa using hlen
  · simp only [hoff]; ring
  · simp only [hwr, hoff]
    have e : 6 * (z * (Nx - 1) + x + 1) = 6 * (z * (Nx - 1) + x) + 5 + 1 := by ring
    rw [e]
    simp [List.range_succ]
  · intro p hp
    simp only [hoff, v1, v2, v3, v4]
    set k := z * (Nx - 1) + x with hkdef
    by_cases hpk : p < 6 * k
    · have n0 : 6 * k ≠ p := by omega
      have n1 : 6 * k + 1 ≠ p := by omega
      have n2 : 6 * k + 2 ≠ p := by omega
      have n3 : 6 * k + 3 ≠ p := by omega
      have n4 : 6 * k + 4 ≠ p := by omega
      have n5 : 6 * k + 5 ≠ p := by omega
      rw [List.getElem?_set_ne n5, List.getElem?_set_ne n4, List.getElem?_set_ne n3,
        List.getElem?_set_ne n2, List.getElem?_set_ne n1, List.getElem?_set_ne n0]
      exact hget p hpk
    · have hp6 : p / 6 = k := by omega
      have hz' : k / (Nx - 1) = z := cell_div z x hx
      have hx' : k % (Nx - 1) = x := cell_mod z x hx
      rw [hp6, hz', hx']
      have hcases : p = 6 * k ∨ p = 6 * k + 1 ∨ p = 6 * k + 2 ∨ p = 6 * k + 3 ∨
          p = 6 * k + 4 ∨ p = 6 * k + 5 := by omega
      rcases hcases with h | h | h | h | h | h <;> subst h
      · have : 6 * k % 6 = 0 := by omega
        rw [this]
        simp [List.getElem?_set, cellIndex, hlen]
        omega
      · have : (6 * k + 1) % 6 = 1 := by omega
        rw [this]
        simp [List.getElem?_set, cellIndex, hlen]
        omega
      · have : (6 * k + 2) % 6 = 2 := by omega
        rw [this]
        simp [List.getElem?_set, cellIndex, hlen]
        omega
      · have : (6 * k + 3) % 6 = 3 := by omega
        rw [this]
        simp [List.getElem?_set, cellIndex, hlen]
        omega
      · have : (6 * k + 4) % 6 = 4 := by omega
        rw [this]
        simp [List.getElem?_set, cellIndex, hlen]
        omega
      · have : (6 * k + 5) % 6 = 5 := by omega
        rw [this]
        simp [List.getElem?_set, cellIndex, hlen]
        omega

theorem CellCount_eq {N : Nat} (h1 : 1 ≤ N) (h2 : N < 4294967296) : CellCount N = N - 1 :=
  sub32_one h1 h2

theorem TotalIndexCount_eq (Nx Nz : Nat) (hNx : 2 ≤ Nx) (hNz : 2 ≤ Nz)
    (hb : (Nx - 1) * (Nz - 1) * 6 < 4294967296) :
    CellCount Nx = Nx - 1 ∧ CellCount Nz = Nz - 1 ∧
      TotalIndexCount Nx Nz = (Nx - 1) * (Nz - 1) * 6 := by
  have hvb := vertex_bound_of_index_bound Nx Nz hNx hNz hb
  have hx : Nx < 4294967296 := by nlinarith
  have hz : Nz < 4294967296 := by nlinarith
  have cx := CellCount_eq (N := Nx) (by omega) hx
  have cz := CellCount_eq (N := Nz) (by omega) hz
  refine ⟨cx, cz, ?_⟩
  unfold TotalIndexCount
  rw [cx, cz, u32_of_lt (show (Nx - 1) * (Nz - 1) < 4294967296 by omega), u32_of_lt hb]

theorem indexInit_inv (Nx Nz : Nat) (hNx : 2 ≤ Nx) (hNz : 2 ≤ Nz)
    (hb : (Nx - 1) * (Nz - 1) * 6 < 4294967296) : IndexInv Nx Nz 0 (indexInit Nx Nz) := by
  obtain ⟨_, _, hT⟩ := TotalIndexCount_eq Nx Nz hNx hNz hb
  refine ⟨?_, rfl, rfl, fun p hp => by omega⟩
  simp [indexInit, hT]

/-- The inner loop of `CreateIndexBuffer`, stopped after `x` cells of row `z`. -/
theorem indexRow_upto (Nx Nz z x : Nat) (hNx : 2 ≤ Nx) (hNz : 2 ≤ Nz)
    (hb : (Nx - 1) * (Nz - 1) * 6 < 4294967296) (hz : z < Nz - 1) (hx : x ≤ Nx - 1)
    (s : IndexWriter) (hs : IndexInv Nx Nz (z * (Nx - 1)) s) :
    ∃ s', forLoop (fun x' s' => cellBody Nx z x' s') x 0 s = some s' ∧
      IndexInv Nx Nz (z * (Nx - 1) + x) s' := by
  have := forLoop_complete (fun x' s' => cellBody Nx z x' s')
    (fun x' s' => IndexInv Nx Nz (z * (Nx - 1) + x') s') x 0 s (by simpa using hs)
    (fun j t _ hj ht => by
      obtain ⟨t', h1, h2, _⟩ := cellBody_step Nx Nz z j hNx hNz hb hz (by omega) t ht
      exact ⟨t', h1, h2⟩)
  simpa using this

theorem indexRow_step (Nx Nz z : Nat) (hNx : 2 ≤ Nx) (hNz : 2 ≤ Nz)
    (hb : (Nx - 1) * (Nz - 1) * 6 < 4294967296) (hz : z < Nz - 1)
    (s : IndexWriter) (hs : IndexInv Nx Nz (z * (Nx - 1)) s) :
    ∃ s', indexRow Nx z s = some s' ∧ IndexInv Nx Nz ((z + 1) * (Nx - 1)) s' := by
  obtain ⟨cx, _, _⟩ := TotalIndexCount_eq Nx Nz hNx hNz hb
  obtain ⟨s', h1, h2⟩ := indexRow_upto Nx Nz z (Nx - 1) hNx hNz hb hz (le_refl _) s hs
  refine ⟨s', ?_, ?_⟩
  · unfold indexRow; rw [cx]; exact h1
  · have e : (z + 1) * (Nx - 1) = z * (Nx - 1) + (Nx - 1) := by ring
    rw [e]; exact h2

/-- The outer loop of `CreateIndexBuffer`, stopped after `z` rows. -/
theorem indexRows_upto (Nx Nz z : Nat) (hNx : 2 ≤ Nx) (hNz : 2 ≤ Nz)
    (hb : (Nx - 1) * (Nz - 1) * 6 < 4294967296) (hz : z ≤ Nz - 1) :
    ∃ s, forLoop (fun z' s => indexRow Nx z' s) z 0 (indexInit Nx Nz) = some s ∧
      IndexInv Nx Nz (z * (Nx - 1)) s := by
  have := forLoop_complete (fun z' s => indexRow Nx z' s)
    (fun z' s => IndexInv Nx Nz (z' * (Nx - 1)) s) z 0 (indexInit Nx Nz)
    (by simpa using indexInit_inv Nx Nz hNx hNz hb)
    (fun j t _ hj ht => indexRow_step Nx Nz j hNx hNz hb (by omega) t ht)
  simpa using this

theorem indexLoops_total (Nx Nz : Nat) (hNx : 2 ≤ Nx) (hNz : 2 ≤ Nz)
    (hb : (Nx - 1) * (Nz - 1) * 6 < 4294967296) :
    ∃ s, indexLoops Nx Nz = some s ∧ IndexInv Nx Nz ((Nx - 1) * (Nz - 1)) s := by
  obtain ⟨_, cz, _⟩ := TotalIndexCount_eq Nx Nz hNx hNz hb
  obtain ⟨s, h1, h2⟩ := indexRows_upto Nx Nz (Nz - 1) hNx hNz hb (le_refl _)
  refine ⟨s, ?_, ?_⟩
  · unfold indexLoops; rw [cz]; exact h1
  · rw [Nat.mul_comm]; exact h2

theorem indexEntry_total (Nx Nz z x : Nat) (hNx : 2 ≤ Nx) (hNz : 2 ≤ Nz)
    (hb : (Nx - 1) * (Nz - 1) * 6 < 4294967296) (hz : z < Nz - 1) (hx : x ≤ Nx - 1) :
    ∃ s, indexEntry Nx Nz z x = some s ∧ IndexInv Nx Nz (z * (Nx - 1) + x) s := by
  obtain ⟨s, h1, h2⟩ := indexRows_upto Nx Nz z hNx hNz hb (by omega)
  obtain ⟨s', h3, h4⟩ := indexRow_upto Nx Nz z x hNx hNz hb hz hx s h2
  exact ⟨s', by simp [indexEntry, h1, h3], h4⟩

/-- The index sequence under the 32-bit bound: its length and every entry. -/
theorem index_total (Nx Nz : Nat) (hNx : 2 ≤ Nx) (hNz : 2 ≤ Nz)
    (hb : (Nx - 1) * (Nz - 1) * 6 < 4294967296) :
    ∃ idx, CreateIndexBuffer Nx Nz = some idx ∧ idx.length = (Nx - 1) * (Nz - 1) * 6 ∧
      ∀ p, p < (Nx - 1) * (Nz - 1) * 6 →
        idx[p]? = some (cellIndex Nx (p / 6 / (Nx - 1)) (p / 6 % (Nx - 1)) (p % 6)) := by
  obtain ⟨s, h1, hlen, _, _, hget⟩ := indexLoops_total Nx Nz hNx hNz hb
  refine ⟨s.Indices, by simp [CreateIndexBuffer, h1], hlen, fun p hp => hget p (by omega)⟩

theorem store_some (s s' : IndexWriter) (v : Nat) (h : store s v = some s') :
    s.IndexOffset < s.Indices.length ∧ s'.Indices.length = s.Indices.length ∧
      s'.IndexOffset = u32 (s.IndexOffset + 1) := by
  unfold store at h
  split at h
  · simp only [Option.some.injEq] at h
    subst h
    simp_all
  · simp at h

/-- Invariant of every successful store: the cursor has not passed the end of the array. -/
theorem store_some_inv (T c : Nat) (hT : T < 4294967296) (s s' : IndexWriter) (v : Nat)
    (h : store s v = some s') (hs : s.Indices.length = T ∧ s.IndexOffset = c) :
    s'.Indices.length = T ∧ s'.IndexOffset = c + 1 ∧ c + 1 ≤ T := by
  obtain ⟨h1, h2, h3⟩ := store_some s s' v h
  obtain ⟨hl, ho⟩ := hs
  have : u32 (s.IndexOffset + 1) = s.IndexOffset + 1 := u32_of_lt (by omega)
  refine ⟨by omega, by omega, by omega⟩

theorem cellBody_some_inv (T c : Nat) (hT : T < 4294967296) (Nx z x : Nat) (s s' : IndexWriter)
    (h : cellBody Nx z x s = some s') (hs : s.Indices.length = T ∧ s.IndexOffset = c) :
    s'.Indices.length = T ∧ s'.IndexOffset = c + 6 ∧ c + 6 ≤ T := by
  unfold cellBody at h
  simp only [Option.bind_eq_some] at h
  obtain ⟨s1, h1, s2, h2, s3, h3, s4, h4, s5, h5, h6⟩ := h
  obtain ⟨a1, b1, _⟩ := store_some_inv T c hT s s1 _ h1 hs
  obtain ⟨a2, b2, _⟩ := store_some_inv T (c + 1) hT s1 s2 _ h2 ⟨a1, b1⟩
  obtain ⟨a3, b3, _⟩ := store_some_inv T (c + 2) hT s2 s3 _ h3 ⟨a2, b2⟩
  obtain ⟨a4, b4, _⟩ := store_some_inv T (c + 3) hT s3 s4 _ h4 ⟨a3, b3⟩
  obtain ⟨a5, b5, _⟩ := store_some_inv T (c + 4) hT s4 s5 _ h5 ⟨a4, b4⟩
  obtain ⟨a6, b6, c6⟩ := store_some_inv T (c + 5) hT s5 s' _ h6 ⟨a5, b5⟩
  exact ⟨a6, b6, c6⟩

/-- A run of the loops of `CreateIndexBuffer` that returns has advanced the cursor by six per
cell without leaving the array, so the index count did not wrap around. -/
theorem indexLoops_some_bound (Nx Nz : Nat) (s : IndexWriter) (h : indexLoops Nx Nz = some s) :
    6 * (CellCount Nx * CellCount Nz) ≤ TotalIndexCount Nx Nz := by
  have hT : TotalIndexCount Nx Nz < 4294967296 := u32_lt _
  set T := TotalIndexCount Nx Nz with hTdef
  have hrow : ∀ z c (t t' : IndexWriter), indexRow Nx z t = some t' →
      (t.Indices.length = T ∧ t.IndexOffset = c ∧ c ≤ T) →
      t'.Indices.length = T ∧ t'.IndexOffset = c + 6 * CellCount Nx ∧
        c + 6 * CellCount Nx ≤ T := by
    intro z c t t' hrun ht
    have := forLoop_sound (fun x s' => cellBody Nx z x s')
      (fun x u => u.Indices.length = T ∧ u.IndexOffset = c + 6 * x ∧ c + 6 * x ≤ T)
      (CellCount Nx) 0 t t' hrun (by simpa using ht)
      (fun x u u' _ _ hu hb => by
        obtain ⟨p1, p2, p3⟩ := cellBody_some_inv T (c + 6 * x) hT Nx z x u u' hb ⟨hu.1, hu.2.1⟩
        refine ⟨p1, by omega, by omega⟩)
    simpa using this
  have := forLoop_sound (fun z s => indexRow Nx z s)
    (fun z u => u.Indices.length = T ∧ u.IndexOffset = 6 * CellCount Nx * z ∧
      6 * CellCount Nx * z ≤ T)
    (CellCount Nz) 0 (indexInit Nx Nz) s h (by simp [indexInit, hTdef])
    (fun z u u' _ _ hu hb => by
      obtain ⟨p1, p2, p3⟩ := hrow z _ u u' hb hu
      have e : 6 * CellCount Nx * (z + 1) = 6 * CellCount Nx * z + 6 * CellCount Nx := by ring
      rw [e]
      exact ⟨p1, p2, p3⟩)
  obtain ⟨_, _, h3⟩ := this
  have e : 6 * CellCount Nx * (0 + CellCount Nz) = 6 * (CellCount Nx * CellCount Nz) := by ring
  omega

/-- For `Uint32` resolutions of at least two, `CreateIndexBuffer` returns only when the index
count fits 32 bits. -/
theorem index_some_bound (Nx Nz : Nat) (hNx : 2 ≤ Nx) (hNz : 2 ≤ Nz) (hx32 : Nx < 4294967296)
    (hz32 : Nz < 4294967296) (idx : List Nat) (h : CreateIndexBuffer Nx Nz = some idx) :
    (Nx - 1) * (Nz - 1) * 6 < 4294967296 := by
  unfold CreateIndexBuffer at h
  simp only [Option.map_eq_some'] at h
  obtain ⟨s, hs, _⟩ := h
  have := indexLoops_some_bound Nx Nz s hs
  have hT : TotalIndexCount Nx Nz < 4294967296 := u32_lt _
  rw [CellCount_eq (by omega) hx32, CellCount_eq (by omega) hz32] at this
  have e : (Nx - 1) * (Nz - 1) * 6 = 6 * ((Nx - 1) * (Nz - 1)) := by ring
  omega

theorem forLoop_add {σ : Type} (body : Nat → σ → Option σ) (a b i : Nat) (s : σ) :
    forLoop body (a + b) i s = (forLoop body a i s).bind (forLoop body b (i + a)) := by
  induction a generalizing i s with
  | zero => simp [forLoop]
  | succ a ih =>
    have e : a + 1 + b = (a + b) + 1 := by omega
    rw [e, forLoop, forLoop]
    cases h : body i s with
    | none => simp
    | some t =>
      simp only []
      rw [ih (i + 1) t]
      have e2 : i + 1 + a = i + (a + 1) := by omega
      rw [e2]

end Diligent
namespace Diligent

theorem forLoop_one {σ : Type} (body : Nat → σ → Option σ) (i : Nat) (s : σ) :
    forLoop body 1 i s = body i s := by
  rw [forLoop]
  cases body i s with
  | none => rfl
  | some t => simp only [forLoop]

/-- The entry state of a cell is an intermediate state of the full run: the loops of
`CreateIndexBuffer` are the run up to the entry of cell `(x, z)`, followed by the remaining
`b` cells of row `z` and by the remaining `a` rows. -/
theorem indexLoops_eq_entry_bind (Nx Nz z x a b : Nat) (hz : CellCount Nz = z + (1 + a))
    (hx : CellCount Nx = x + b) :
    indexLoops Nx Nz = (indexEntry Nx Nz z x).bind fun s =>
      (forLoop (fun x' s' => cellBody Nx z x' s') b x s).bind fun s' =>
        forLoop (fun z' t => indexRow Nx z' t) a (z + 1) s' := by
  have hrow : ∀ t, indexRow Nx z t =
      (forLoop (fun x' s' => cellBody Nx z x' s') x 0 t).bind
        (forLoop (fun x' s' => cellBody Nx z x' s') b x) := by
    intro t
    have := forLoop_add (fun x' s' => cellBody Nx z x' s') x b 0 t
    rw [Nat.zero_add] at this
    rw [indexRow, hx]
    exact this
  have hone : ∀ t, forLoop (fun z' s => indexRow Nx z' s) (1 + a) z t =
      (indexRow Nx z t).bind (forLoop (fun z' s => indexRow Nx z' s) a (z + 1)) := by
    intro t
    rw [forLoop_add (fun z' s => indexRow Nx z' s) 1 a z t,
      forLoop_one (fun z' s => indexRow Nx z' s) z t]
  have hall := forLoop_add (fun z' s => indexRow Nx z' s) z (1 + a) 0 (indexInit Nx Nz)
  rw [Nat.zero_add] at hall
  rw [indexLoops, hz, hall, indexEntry]
  cases forLoop (fun z' s => indexRow Nx z' s) z 0 (indexInit Nx Nz) with
  | none => rfl
  | some t =>
    simp only [Option.some_bind]
    rw [hone t, hrow t]
    cases forLoop (fun x' s' => cellBody Nx z x' s') x 0 t with
    | none => rfl
    | some u => rfl

end Diligent
namespace Diligent
theorem cellIndex_lt (Nx Nz z x j : Nat) (hz : z < Nz - 1) (hx : x < Nx - 1) :
    cellIndex Nx z x j < Nx * Nz := by
  have h := cell_lt (N := Nx) (M := Nz) (z + 1) (x + 1) (by omega) (by omega)
  have e : (z + 1) * Nx = z * Nx + Nx := by ring
  unfold cellIndex
  split <;> omega

end Diligent
namespace Diligent
/-- Every vertex of a returned vertex sequence, addressed by grid point. -/
theorem vertex_at {F : Type} (A : FloatArith F) (W L : F) (Nx Nz : Nat) (vs : List (Vertex F))
    (h : CreateVertexBuffer A W L Nx Nz = some vs) (z x : Nat) (hz : z < Nz) (hx : x < Nx) :
    vs.length = Nx * Nz ∧ vs[z * Nx + x]? = some (planeVertex A W L Nx Nz z x) := by
  have hb := vertex_some_bound A W L Nx Nz vs h
  obtain ⟨vs', h1, h2, h3⟩ := vertex_total A W L Nx Nz hb
  rw [h] at h1
  simp only [Option.some.injEq] at h1
  subst h1
  refine ⟨h2, ?_⟩
  rw [h3 _ (cell_lt z x hx hz), cell_div z x hx, cell_mod z x hx]

end Diligent
namespace Diligent
/-- Every entry of a returned index sequence, addressed by cell and slot. -/
theorem index_at (Nx Nz : Nat) (hNx : 2 ≤ Nx) (hNz : 2 ≤ Nz) (hx32 : Nx < 4294967296)
    (hz32 : Nz < 4294967296) (idx : List Nat) (h : CreateIndexBuffer Nx Nz = some idx)
    (z x j : Nat) (hz : z < Nz - 1) (hx : x < Nx - 1) (hj : j < 6) :
    idx.length = (Nx - 1) * (Nz - 1) * 6 ∧
      idx[6 * (z * (Nx - 1) + x) + j]? = some (cellIndex Nx z x j) := by
  have hb := index_some_bound Nx Nz hNx hNz hx32 hz32 idx h
  obtain ⟨idx', h1, h2, h3⟩ := index_total Nx Nz hNx hNz hb
  rw [h] at h1
  simp only [Option.some.injEq] at h1
  subst h1
  refine ⟨h2, ?_⟩
  have hk : z * (Nx - 1) + x < (Nx - 1) * (Nz - 1) := cell_lt z x hx hz
  rw [h3 _ (by omega)]
  have e1 : (6 * (z * (Nx - 1) + x) + j) / 6 = z * (Nx - 1) + x := by omega
  have e2 : (6 * (z * (Nx - 1) + x) + j) % 6 = j := by omega
  rw [e1, e2, cell_div z x hx, cell_mod z x hx]

/-! ## Binary32: basic facts -/

theorem ilog2_step_inv (m : Nat) (l : List Nat) (k : Nat) (hk : m >>> k ≠ 0) :
    m >>> (l.foldl (fun k b => if m >>> (k + b) = 0 then k else k + b) k) ≠ 0 := by
  induction l generalizing k with
  | nil => exact hk
  | cons b l ih =>
    rw [List.foldl_cons]
    apply ih
    split
    · exact hk
    · assumption

/-- The leading-bit position found by `ilog2` is not too high. -/
theorem two_pow_ilog2_le (m : Nat) (hm : m ≠ 0) : 2 ^ ilog2 m ≤ m := by
  have h := ilog2_step_inv m [256, 128, 64, 32, 16, 8, 4, 2, 1] 0 (by simpa using hm)
  rw [Nat.shiftRight_eq_div_pow] at h
  by_contra hlt
  exact h (Nat.div_eq_of_lt (by unfold ilog2 at hlt; omega))

theorem roundHalfEven_ge (n d : Nat) : n / d ≤ roundHalfEven n d := by
  unfold roundHalfEven
  simp only []
  split
  · exact le_refl _
  · split
    · omega
    · split <;> omega

theorem roundHalfEven_le (n d : Nat) : roundHalfEven n d ≤ n / d + 1 := by
  unfold roundHalfEven
  simp only []
  split
  · omega
  · split
    · omega
    · split <;> omega

theorem roundMag_big (n d : Nat) (h : ¬ n / d < 16777216) :
    roundMag n d =
      roundHalfEven n (d * 2 ^ (ilog2 (n / d) - 23)) * 2 ^ (ilog2 (n / d) - 23) := by
  unfold roundMag
  exact if_neg h

theorem ilog2_step_upper (m k w : Nat) (h : m >>> (k + 2 * w) = 0) :
    m >>> ((if m >>> (k + w) = 0 then k else k + w) + w) = 0 := by
  split
  · assumption
  · have e : k + w + w = k + 2 * w := by omega
    rw [e]; exact h

/-- The leading-bit position found by `ilog2` is not too low. -/
theorem lt_two_pow_ilog2_succ (m : Nat) (hm : m < 2 ^ 256 * 2 ^ 256) : m < 2 ^ (ilog2 m + 1) := by
  have h0 : m >>> (0 + 2 * 256) = 0 := by
    show m >>> (256 + 256) = 0
    rw [Nat.shiftRight_add, Nat.shiftRight_eq_div_pow, Nat.shiftRight_eq_div_pow]
    exact Nat.div_eq_of_lt ((Nat.div_lt_iff_lt_mul (by positivity)).mpr hm)
  have h1 := ilog2_step_upper m _ 256 h0
  have h2 := ilog2_step_upper m _ 128 h1
  have h3 := ilog2_step_upper m _ 64 h2
  have h4 := ilog2_step_upper m _ 32 h3
  have h5 := ilog2_step_upper m _ 16 h4
  have h6 := ilog2_step_upper m _ 8 h5
  have h7 := ilog2_step_upper m _ 4 h6
  have h8 := ilog2_step_upper m _ 2 h7
  have h9 := ilog2_step_upper m _ 1 h8
  have h10 : m >>> (ilog2 m + 1) = 0 := h9
  rw [Nat.shiftRight_eq_div_pow] at h10
  exact (Nat.div_eq_zero_iff (by positivity)).mp h10

/-- The rounding error of `roundHalfEven` is at most half a unit. -/
theorem roundHalfEven_error (n d : Nat) (hd : 0 < d) :
    2 * (roundHalfEven n d * d) ≤ 2 * n + d ∧ 2 * n ≤ 2 * (roundHalfEven n d * d) + d := by
  unfold roundHalfEven
  simp only []
  have hdm : d * (n / d) + n % d = n := Nat.div_add_mod n d
  have hlt : n % d < d := Nat.mod_lt n hd
  generalize n / d = f at *
  generalize n % d = r at *
  have e1 : f * d = d * f := Nat.mul_comm _ _
  have e2 : (f + 1) * d = d * f + d := by ring
  split_ifs <;> simp only [e1, e2] <;> constructor <;> omega

/-- What `roundMag` computes, for a magnitude of at least `2 ^ 24` units below the overflow
threshold: with `s + 23` the position of the leading bit of `n / d`, so that the binary32
values of that binade are the multiples of `2 ^ s`, the result is a multiple `j * 2 ^ s`
with a significand `j` of at most 24 bits (or the next power of two), and it differs from
`n / d` by at most half of `2 ^ s`. -/
theorem roundMag_spec (n d : Nat) (hd : 0 < d) (h24 : 16777216 ≤ n / d)
    (hov : n / d < overflow32) :
    ∃ s j, 2 ^ (s + 23) ≤ n / d ∧ n / d < 2 ^ (s + 24) ∧ roundMag n d = j * 2 ^ s ∧
      8388608 ≤ j ∧ j ≤ 16777216 ∧
      2 * (roundMag n d * d) ≤ 2 * n + d * 2 ^ s ∧ 2 * n ≤ 2 * (roundMag n d * d) + d * 2 ^ s := by
  have hm0 : n / d ≠ 0 := by omega
  have hlo := two_pow_ilog2_le (n / d) hm0
  have hhi := lt_two_pow_ilog2_succ (n / d) (lt_trans hov (by decide))
  have hk : 24 ≤ ilog2 (n / d) := by
    by_contra hc
    have : 2 ^ (ilog2 (n / d) + 1) ≤ 2 ^ 24 := Nat.pow_le_pow_right (by norm_num) (by omega)
    have e : (2 : Nat) ^ 24 = 16777216 := by norm_num
    omega
  obtain ⟨s, hs⟩ : ∃ s, ilog2 (n / d) = s + 23 := ⟨ilog2 (n / d) - 23, by omega⟩
  have hsub : ilog2 (n / d) - 23 = s := by omega
  have hP : 0 < 2 ^ s := by positivity
  have hdP : 0 < d * 2 ^ s := Nat.mul_pos hd hP
  rw [hs] at hlo hhi
  rw [show s + 23 + 1 = s + 24 from rfl] at hhi
  have hmag : roundMag n d = roundHalfEven n (d * 2 ^ s) * 2 ^ s := by
    rw [roundMag_big n d (by omega), hsub]
  obtain ⟨r1, r2⟩ := roundHalfEven_error n (d * 2 ^ s) hdP
  have hge := roundHalfEven_ge n (d * 2 ^ s)
  have hle := roundHalfEven_le n (d * 2 ^ s)
  have hq : n / (d * 2 ^ s) = n / d / 2 ^ s := (Nat.div_div_eq_div_mul n d (2 ^ s)).symm
  have hq1 : 8388608 ≤ n / d / 2 ^ s := by
    rw [Nat.le_div_iff_mul_le hP]
    have e : 8388608 * 2 ^ s = 2 ^ (s + 23) := by rw [pow_add]; norm_num; ring
    omega
  have hq2 : n / d / 2 ^ s < 16777216 := by
    rw [Nat.div_lt_iff_lt_mul hP]
    have e : 16777216 * 2 ^ s = 2 ^ (s + 24) := by rw [pow_add]; norm_num; ring
    omega
  refine ⟨s, roundHalfEven n (d * 2 ^ s), hlo, hhi, hmag, by omega, by omega, ?_, ?_⟩
  · rw [hmag]
    have e : roundHalfEven n (d * 2 ^ s) * 2 ^ s * d = roundHalfEven n (d * 2 ^ s) * (d * 2 ^ s) := by
      ring
    rw [e]; exact r1
  · rw [hmag]
    have e : roundHalfEven n (d * 2 ^ s) * 2 ^ s * d = roundHalfEven n (d * 2 ^ s) * (d * 2 ^ s) := by
      ring
    rw [e]; exact r2

/-- Known values of binary32 rounding: `2 ^ 24 + 1` and `2 ^ 24 + 3` are ties and go to the
even neighbour; a third is `11184811 / 2 ^ 25`; half the smallest positive value is a tie and
goes to zero, three halves of it to twice it; the largest finite value is kept, and the
midpoint between it and `2 ^ 128` is not finite. -/
theorem binary32_known_values :
    binary32.ofNat 16777217 = binary32.ofNat 16777216 ∧
      binary32.ofNat 16777219 = binary32.ofNat 16777220 ∧
      binary32.div (binary32.ofNat 1) (binary32.ofNat 3) =
        some ((11184811 * 2 ^ 124 : Nat) : Int) ∧
      round32 1 2 = some 0 ∧ round32 3 2 = some 2 ∧ round32 (-3) 2 = some (-2) ∧
      round32 (((16777215 * 2 ^ 253 : Nat) : Int)) 1 =
        some ((16777215 * 2 ^ 253 : Nat) : Int) ∧
      round32 (((33554431 * 2 ^ 253 : Nat) : Int)) 2 = none ∧
      binary32.div (binary32.ofNat 1) (binary32.ofNat 0) = none := by
  decide

/-! ## Exact arithmetic and binary32 on the grid -/

theorem planeVertex_exact (W L : ℚ) (Nx Nz z x : Nat) (hNx : 2 ≤ Nx) (hNz : 2 ≤ Nz)
    (hb : Nx * Nz < 4294967296) :
    planeVertex exactArith W L Nx Nz z x =
      ⟨⟨-W / 2 + (x : ℚ) * W / ((Nx : ℚ) - 1), 0, -L / 2 + (z : ℚ) * L / ((Nz : ℚ) - 1)⟩,
        ⟨(x : ℚ) / ((Nx : ℚ) - 1), (z : ℚ) / ((Nz : ℚ) - 1)⟩⟩ := by
  have hx : Nx < 4294967296 := by nlinarith
  have hz : Nz < 4294967296 := by nlinarith
  have cx : ((sub32 Nx 1 : Nat) : ℚ) = (Nx : ℚ) - 1 := by
    rw [sub32_one (by omega) hx, Nat.cast_sub (by omega), Nat.cast_one]
  have cz : ((sub32 Nz 1 : Nat) : ℚ) = (Nz : ℚ) - 1 := by
    rw [sub32_one (by omega) hz, Nat.cast_sub (by omega), Nat.cast_one]
  simp only [planeVertex, gridPos, gridUV, Step, exactArith, cx, cz, mul_div_assoc]

/-- C1 (amended): for every `float` arithmetic, every plane extent and every resolution
`Nx, Nz ≥ 2`, the grid generator produces a vertex sequence of exactly `Nx * Nz` elements
whenever `Nx * Nz` fits the `Uint32` in which `TotalVertexCount` is computed, and an index
sequence of exactly `(Nx - 1) * (Nz - 1) * 6` elements whenever that count fits the `Uint32`
in which `TotalIndexCount` is computed. -/
theorem grid_sizes {F : Type} (A : FloatArith F) (W L : F) (Nx Nz : Nat) (hNx : 2 ≤ Nx)
    (hNz : 2 ≤ Nz) :
    (Nx * Nz < 4294967296 →
      ∃ vs, CreateVertexBuffer A W L Nx Nz = some vs ∧ vs.length = Nx * Nz) ∧
    ((Nx - 1) * (Nz - 1) * 6 < 4294967296 →
      ∃ idx, CreateIndexBuffer Nx Nz = some idx ∧ idx.length = (Nx - 1) * (Nz - 1) * 6) := by
  constructor
  · intro hb
    obtain ⟨vs, h1, h2, _⟩ := vertex_total A W L Nx Nz hb
    exact ⟨vs, h1, h2⟩
  · intro hb
    obtain ⟨idx, h1, h2, _⟩ := index_total Nx Nz hNx hNz hb
    exact ⟨idx, h1, h2⟩

/-- C1, at the sample's constants: the 12 x 12 plane with 100 x 100 vertices has 10000
vertices and 58806 indices. -/
theorem grid_sizes_sample :
    2 ≤ 100 ∧ (∃ vs, sampleVertexBuffer binary32 = some vs ∧ vs.length = 10000) ∧
      (∃ idx, sampleIndexBuffer = some idx ∧ idx.length = 58806) := by
  obtain ⟨hv, hi⟩ := grid_sizes binary32 (binary32.ofRat 12) (binary32.ofRat 12) 100 100
    (by decide) (by decide)
  exact ⟨by decide, hv (by decide), hi (by decide)⟩

/-- C1 as stated fails at the resolution 65536 x 65536: `TotalVertexCount` wraps around to
zero, the array is empty and the first assignment is outside it, so no vertex sequence of
`65536 * 65536` elements is produced. -/
theorem grid_sizes_wrap :
    2 ≤ 65536 ∧ u32 (65536 * 65536) = 0 ∧
      CreateVertexBuffer binary32 (binary32.ofRat 1) (binary32.ofRat 1) 65536 65536 = none := by
  decide

/-- C2: for `Uint32` resolutions `Nx, Nz ≥ 2`, every value stored in an index sequence that
`CreateIndexBuffer` produces is below the vertex count `Nx * Nz`, hence inside the vertex
sequence that `CreateVertexBuffer` produces; a sequence is produced whenever the index count
fits 32 bits. -/
theorem index_values_in_range (Nx Nz : Nat) (hNx : 2 ≤ Nx) (hNz : 2 ≤ Nz)
    (hx32 : Nx < 4294967296) (hz32 : Nz < 4294967296) :
    ((Nx - 1) * (Nz - 1) * 6 < 4294967296 → ∃ idx, CreateIndexBuffer Nx Nz = some idx) ∧
    ∀ idx, CreateIndexBuffer Nx Nz = some idx →
      (∀ v, v ∈ idx → v < Nx * Nz) ∧
      ∀ (F : Type) (A : FloatArith F) (W L : F) (vs : List (Vertex F)),
        CreateVertexBuffer A W L Nx Nz = some vs → ∀ v, v ∈ idx → v < vs.length := by
  refine ⟨fun hb => ?_, fun idx h => ?_⟩
  · obtain ⟨idx, h1, _⟩ := index_total Nx Nz hNx hNz hb
    exact ⟨idx, h1⟩
  · have hb := index_some_bound Nx Nz hNx hNz hx32 hz32 idx h
    have hvals : ∀ v, v ∈ idx → v < Nx * Nz := by
      intro v hv
      obtain ⟨idx', h1, h2, h3⟩ := index_total Nx Nz hNx hNz hb
      rw [h] at h1
      simp only [Option.some.injEq] at h1
      subst h1
      obtain ⟨p, hp, rfl⟩ := List.getElem_of_mem hv
      have hget := h3 p (by omega)
      rw [List.getElem?_eq_getElem hp] at hget
      simp only [Option.some.injEq] at hget
      rw [hget]
      have hcx : 0 < Nx - 1 := by omega
      apply cellIndex_lt
      · rw [Nat.div_lt_iff_lt_mul hcx]
        have e : (Nz - 1) * (Nx - 1) = (Nx - 1) * (Nz - 1) := Nat.mul_comm _ _
        omega
      · exact Nat.mod_lt _ hcx
    refine ⟨hvals, fun F A W L vs hvs v hv => ?_⟩
    obtain ⟨hlen, _⟩ := vertex_at A W L Nx Nz vs hvs 0 0 (by omega) (by omega)
    rw [hlen]
    exact hvals v hv

/-- C2 at the 3 x 3 grid. -/
theorem index_values_in_range_3x3 :
    2 ≤ 3 ∧ 3 < 4294967296 ∧
      (((3 - 1) * (3 - 1) * 6 < 4294967296 → ∃ idx, CreateIndexBuffer 3 3 = some idx) ∧
      ∀ idx, CreateIndexBuffer 3 3 = some idx →
        (∀ v, v ∈ idx → v < 3 * 3) ∧
        ∀ (F : Type) (A : FloatArith F) (W L : F) (vs : List (Vertex F)),
          CreateVertexBuffer A W L 3 3 = some vs → ∀ v, v ∈ idx → v < vs.length) :=
  ⟨by decide, by decide, index_values_in_range 3 3 (by decide) (by decide) (by decide)
    (by decide)⟩

/-- C3 (amended): for every `Nx, Nz ≥ 2` whose index count `(Nx - 1) * (Nz - 1) * 6` fits
the `Uint32` in which it is computed, and every cell `(x, z)` with `x < Nx - 1` and
`z < Nz - 1`, `CreateIndexBuffer` produces an index sequence whose six consecutive entries
starting at position `6 * (z * (Nx - 1) + x)` are bottomLeft, topLeft, topRight, bottomLeft,
topRight, bottomRight with bottomLeft `= z * Nx + x`, bottomRight `= z * Nx + x + 1`,
topLeft `= (z + 1) * Nx + x` and topRight `= (z + 1) * Nx + x + 1`. -/
theorem cell_entries (Nx Nz x z : Nat) (hNx : 2 ≤ Nx) (hNz : 2 ≤ Nz)
    (hb : (Nx - 1) * (Nz - 1) * 6 < 4294967296) (hx : x < Nx - 1) (hz : z < Nz - 1) :
    ∃ idx, CreateIndexBuffer Nx Nz = some idx ∧
      (idx.drop (6 * (z * (Nx - 1) + x))).take 6 =
        [z * Nx + x, (z + 1) * Nx + x, (z + 1) * Nx + x + 1,
          z * Nx + x, (z + 1) * Nx + x + 1, z * Nx + x + 1] := by
  have hvb := vertex_bound_of_index_bound Nx Nz hNx hNz hb
  have hx32 : Nx < 4294967296 := by nlinarith
  have hz32 : Nz < 4294967296 := by nlinarith
  obtain ⟨idx, h, _⟩ := index_total Nx Nz hNx hNz hb
  refine ⟨idx, h, ?_⟩
  have hat := fun j hj => (index_at Nx Nz hNx hNz hx32 hz32 idx h z x j hz hx hj).2
  apply List.ext_getElem?
  intro n
  rw [List.getElem?_take]
  by_cases hn : n < 6
  · rw [if_pos hn, List.getElem?_drop, hat n hn]
    have hc : n = 0 ∨ n = 1 ∨ n = 2 ∨ n = 3 ∨ n = 4 ∨ n = 5 := by omega
    rcases hc with h | h | h | h | h | h <;> subst h <;> simp [cellIndex]
  · rw [if_neg hn]
    symm
    rw [List.getElem?_eq_none_iff]
    simp only [List.length_cons, List.length_nil]
    omega

/-- C3 at the cell `(1, 1)` of the 3 x 3 grid. -/
theorem cell_entries_3x3 :
    2 ≤ 3 ∧ (3 - 1) * (3 - 1) * 6 < 4294967296 ∧ 1 < 3 - 1 ∧
      ∃ idx, CreateIndexBuffer 3 3 = some idx ∧
        (idx.drop (6 * (1 * (3 - 1) + 1))).take 6 =
          [1 * 3 + 1, (1 + 1) * 3 + 1, (1 + 1) * 3 + 1 + 1,
            1 * 3 + 1, (1 + 1) * 3 + 1 + 1, 1 * 3 + 1 + 1] :=
  ⟨by decide, by decide, by decide,
    cell_entries 3 3 1 1 (by decide) (by decide) (by decide) (by decide) (by decide)⟩

/-- C3 as stated fails at the resolution 65537 x 65537: `TotalIndexCount` wraps around to
zero and the first store is outside the empty array, so there is no index sequence; and in
the cell `(0, 65535)` the code's `TopLeft` is `65536`, the `Uint32` remainder of the claimed
`(65535 + 1) * 65537 + 0 = 4295032832`. -/
theorem cell_entries_wrap :
    2 ≤ 65537 ∧ 0 < 65537 - 1 ∧ 65535 < 65537 - 1 ∧ CreateIndexBuffer 65537 65537 = none ∧
      TopLeft 65537 65535 0 = 65536 ∧ (65535 + 1) * 65537 + 0 = 4295032832 := by
  decide

/-- C4 (amended): for every `W`, `L`, every `Nx, Nz ≥ 2` whose vertex count `Nx * Nz` fits
the `Uint32` in which it is computed, and every grid point `(x, z)` with `x < Nx` and
`z < Nz`, over exact rational arithmetic `CreateVertexBuffer` produces a vertex sequence
whose element at position `z * Nx + x` has position
`(-W/2 + x*W/(Nx-1), 0, -L/2 + z*L/(Nz-1))` and texture coordinate `(x/(Nx-1), z/(Nz-1))`. -/
theorem vertex_value (W L : ℚ) (Nx Nz x z : Nat) (hNx : 2 ≤ Nx) (hNz : 2 ≤ Nz)
    (hb : Nx * Nz < 4294967296) (hx : x < Nx) (hz : z < Nz) :
    ∃ vs, CreateVertexBuffer exactArith W L Nx Nz = some vs ∧
      vs[z * Nx + x]? = some
        ⟨⟨-W / 2 + (x : ℚ) * W / ((Nx : ℚ) - 1), 0, -L / 2 + (z : ℚ) * L / ((Nz : ℚ) - 1)⟩,
          ⟨(x : ℚ) / ((Nx : ℚ) - 1), (z : ℚ) / ((Nz : ℚ) - 1)⟩⟩ := by
  obtain ⟨vs, h, _⟩ := vertex_total exactArith W L Nx Nz hb
  refine ⟨vs, h, ?_⟩
  rw [(vertex_at exactArith W L Nx Nz vs h z x hz hx).2,
    planeVertex_exact W L Nx Nz z x hNx hNz hb]

/-- C4 at the example of the spec: for `Nx = Nz = 3` and `W = L = 2` the vertex at `(1, 1)`
has position `(0, 0, 0)` and texture coordinate `(1/2, 1/2)`. -/
theorem vertex_value_example :
    2 ≤ 3 ∧ 3 * 3 < 4294967296 ∧ 1 < 3 ∧ ∃ vs, CreateVertexBuffer exactArith 2 2 3 3 = some vs ∧
      vs[1 * 3 + 1]? = some ⟨⟨0, 0, 0⟩, ⟨1 / 2, 1 / 2⟩⟩ := by
  obtain ⟨vs, hvs, h2⟩ := vertex_value 2 2 3 3 1 1 (by decide) (by decide) (by decide)
    (by decide) (by decide)
  refine ⟨by decide, by decide, by decide, vs, hvs, ?_⟩
  rw [h2]
  norm_num

/-- C4 as stated fails at the resolution 65536 x 65536: `TotalVertexCount` wraps around to
zero and the assignment for the grid point `(0, 0)` is outside the empty array, so no vertex
is stored at position `0`; and at 2147483649 x 2 the position of the grid point
`(2147483648, 1)` wraps around to `1`. -/
theorem vertex_value_wrap :
    2 ≤ 65536 ∧ 0 < 65536 ∧ CreateVertexBuffer exactArith 2 2 65536 65536 = none ∧
      u32 (u32 (1 * 2147483649) + 2147483648) = 1 := by
  decide

/-- C7: the number of indices that `Render` requests in its single indexed draw equals
`TotalIndexCount` of `CreateIndexBuffer` and the length of the index sequence it generates:
all are `(100 - 1) * (100 - 1) * 6 = 58806`. -/
theorem draw_covers_index_buffer :
    Render_NumIndices = (100 - 1) * (100 - 1) * 6 ∧ Render_NumIndices = 58806 ∧
      TotalIndexCount 100 100 = Render_NumIndices ∧
      ∃ idx, sampleIndexBuffer = some idx ∧ idx.length = Render_NumIndices := by
  obtain ⟨idx, h1, h2, _⟩ := index_total 100 100 (by decide) (by decide) (by decide)
  exact ⟨by decide, by decide, by decide, idx, h1, by rw [h2]; decide⟩

/-- C8: for every previous state and every frame, `Update` sets the world-view-projection
matrix to `((Model * View) * SurfacePretransform) * Projection`, with `Model` the rotation
about X by `-PI_F * 0.15f`, `View` the translation `(0, 2, 20)` and the last two factors the
host's matrices; the result is the same whatever the previously stored matrix, the
accumulated time, the current time, the delta and the UI flag are. -/
theorem world_view_proj {F M : Type} (A : FloatArith F) (E : Engine F M) (s : SampleState F M)
    (CurrTime ElapsedTime : ℚ) (DoUpdateUI : Bool) :
    (Update A E s CurrTime ElapsedTime DoUpdateUI).m_WorldViewProjMatrix =
        E.mul (E.mul (E.mul (E.RotationX (A.mul (A.neg E.PI_F) (A.ofRat (15 / 100))))
          (E.Translation (A.ofRat 0) (A.ofRat 2) (A.ofRat 20)))
          (E.GetSurfacePretransformMatrix ⟨A.ofNat 0, A.ofNat 0, A.ofNat 1⟩))
          (E.GetAdjustedProjectionMatrix (A.div E.PI_F (A.ofRat 4)) (A.ofRat (1 / 10))
            (A.ofRat 100)) ∧
      ∀ (s' : SampleState F M) (CurrTime' ElapsedTime' : ℚ) (DoUpdateUI' : Bool),
        (Update A E s' CurrTime' ElapsedTime' DoUpdateUI').m_WorldViewProjMatrix =
          (Update A E s CurrTime ElapsedTime DoUpdateUI).m_WorldViewProjMatrix :=
  ⟨rfl, fun _ _ _ _ => rfl⟩

/-- C10 (amended): for every `Nx, Nz ≥ 2` whose index count `(Nx - 1) * (Nz - 1) * 6` fits the
`Uint32` in which `TotalIndexCount` is computed, the write cursor never leaves the pre-sized
array: on entering the body for the cell `(x, z)` the cursor is `6 * (z * (Nx - 1) + x)`, the
body succeeds and writes exactly the six positions from the cursor on, all below
`TotalIndexCount = (Nx - 1) * (Nz - 1) * 6`, and after the loops the cursor is
`TotalIndexCount` and the positions written are `0, 1, ..., TotalIndexCount - 1`, each
once. -/
theorem cursor_in_bounds (Nx Nz : Nat) (hNx : 2 ≤ Nx) (hNz : 2 ≤ Nz)
    (hb : (Nx - 1) * (Nz - 1) * 6 < 4294967296) :
    TotalIndexCount Nx Nz = (Nx - 1) * (Nz - 1) * 6 ∧
    (∀ z x, z < Nz - 1 → x < Nx - 1 →
      ∃ s s', indexEntry Nx Nz z x = some s ∧ s.IndexOffset = 6 * (z * (Nx - 1) + x) ∧
        s.Indices.length = TotalIndexCount Nx Nz ∧
        cellBody Nx z x s = some s' ∧
        s'.written = s.written ++ [s.IndexOffset, s.IndexOffset + 1, s.IndexOffset + 2,
          s.IndexOffset + 3, s.IndexOffset + 4, s.IndexOffset + 5] ∧
        s.IndexOffset + 5 < TotalIndexCount Nx Nz ∧
        s'.IndexOffset = s.IndexOffset + 6) ∧
    ∃ sf, indexLoops Nx Nz = some sf ∧ sf.IndexOffset = TotalIndexCount Nx Nz ∧
      sf.Indices.length = TotalIndexCount Nx Nz ∧
      sf.written = List.range (TotalIndexCount Nx Nz) := by
  obtain ⟨_, _, hT⟩ := TotalIndexCount_eq Nx Nz hNx hNz hb
  refine ⟨hT, fun z x hz hx => ?_, ?_⟩
  · obtain ⟨s, h1, h2⟩ := indexEntry_total Nx Nz z x hNx hNz hb hz (by omega)
    obtain ⟨s', h3, h4, h5⟩ := cellBody_step Nx Nz z x hNx hNz hb hz hx s h2
    have hk : z * (Nx - 1) + x < (Nx - 1) * (Nz - 1) := cell_lt z x hx hz
    obtain ⟨a1, a2, _, _⟩ := h2
    obtain ⟨_, b2, _, _⟩ := h4
    refine ⟨s, s', h1, a2, by rw [hT]; exact a1, h3, h5, by omega, by omega⟩
  · obtain ⟨sf, h1, a1, a2, a3, _⟩ := indexLoops_total Nx Nz hNx hNz hb
    have e : 6 * ((Nx - 1) * (Nz - 1)) = (Nx - 1) * (Nz - 1) * 6 := by ring
    refine ⟨sf, h1, by rw [a2, hT, e], by rw [a1, hT], by rw [a3, hT, e]⟩

/-- C10 at the sample's resolution 100 x 100. -/
theorem cursor_in_bounds_sample :
    2 ≤ 100 ∧ (100 - 1) * (100 - 1) * 6 < 4294967296 ∧
    (TotalIndexCount 100 100 = (100 - 1) * (100 - 1) * 6 ∧
    (∀ z x, z < 100 - 1 → x < 100 - 1 →
      ∃ s s', indexEntry 100 100 z x = some s ∧ s.IndexOffset = 6 * (z * (100 - 1) + x) ∧
        s.Indices.length = TotalIndexCount 100 100 ∧
        cellBody 100 z x s = some s' ∧
        s'.written = s.written ++ [s.IndexOffset, s.IndexOffset + 1, s.IndexOffset + 2,
          s.IndexOffset + 3, s.IndexOffset + 4, s.IndexOffset + 5] ∧
        s.IndexOffset + 5 < TotalIndexCount 100 100 ∧
        s'.IndexOffset = s.IndexOffset + 6) ∧
    ∃ sf, indexLoops 100 100 = some sf ∧ sf.IndexOffset = TotalIndexCount 100 100 ∧
      sf.Indices.length = TotalIndexCount 100 100 ∧
      sf.written = List.range (TotalIndexCount 100 100)) :=
  ⟨by decide, by decide, cursor_in_bounds 100 100 (by decide) (by decide) (by decide)⟩

/-- C10 as stated fails at the resolution 65537 x 65537: `TotalIndexCount` wraps around to
zero, so the array is empty, and the body for the cell `(0, 0)`, entered with the cursor at
`0`, writes outside it. -/
theorem cursor_leaves_array :
    2 ≤ 65537 ∧ TotalIndexCount 65537 65537 = 0 ∧
      indexEntry 65537 65537 0 0 = some (indexInit 65537 65537) ∧
      (indexInit 65537 65537).IndexOffset = 0 ∧ (indexInit 65537 65537).Indices.length = 0 ∧
      cellBody 65537 0 0 (indexInit 65537 65537) = none ∧ indexLoops 65537 65537 = none := by
  decide

end Diligent
